import Mathlib

/-!
Shallow embedding of the custom stemming/lemmatization core of the
`stemming_lemmatization_workshop` notebook: the two pure functions
`stem_word_custom` and `lemmatize_word_custom`.

Words are modelled as lists of Unicode code points (`List Nat`). Both
functions begin with `word.lower()`; Python's case mappings are one-to-many
in general, so `str.lower()`/`str.upper()` are modelled as per-character
mappings to lists of code points: the ASCII fold, plus the expanding
mappings exercised below — U+0130 "İ" lowercases to U+0069 U+0307, and
U+00DF "ß" uppercases to "SS" — with every other code point left fixed.
-/

/-- A word: a string modelled as its list of character code points. -/
abbrev Word : Type := List Nat

/-- Encode a Lean string literal as a `Word` (list of code points). -/
def enc (s : String) : Word := s.data.map Char.toNat

/-- The one-to-one ASCII lowercase fold, used for code points without an
expanding lowercase mapping. -/
def pyToLower (c : Nat) : Nat := if 65 ≤ c ∧ c ≤ 90 then c + 32 else c

/-- The one-to-one ASCII uppercase fold, used for code points without an
expanding uppercase mapping. -/
def pyToUpper (c : Nat) : Nat := if 97 ≤ c ∧ c ≤ 122 then c - 32 else c

/-- Python `str.lower()` on one code point, as a one-to-many mapping: the
ASCII fold, plus the expanding mapping of the modelled repertoire,
U+0130 "İ" → U+0069 U+0307 (two code points); every other code point is
left unchanged. -/
def pyLowerChar (c : Nat) : List Nat :=
  if c = 304 then [105, 775] else [pyToLower c]

/-- Python `str.upper()` on one code point, as a one-to-many mapping: the
ASCII fold, plus the expanding mapping of the modelled repertoire,
U+00DF "ß" → "SS" = U+0053 U+0053 (two code points); every other code
point is left unchanged. -/
def pyUpperChar (c : Nat) : List Nat :=
  if c = 223 then [83, 83] else [pyToUpper c]

/-- `word.lower()`: concatenate the lowercase mapping of each character. -/
def pyLower (w : Word) : Word := List.flatMap w pyLowerChar

/-- `word.upper()`: concatenate the uppercase mapping of each character. -/
def pyUpper (w : Word) : Word := List.flatMap w pyUpperChar

/-- The notebook's suffix list, in source order:
`['ing', 'ed', 'er', 'est', 'ly', 's', 'es']`. -/
def suffixes : List Word :=
  [enc "ing", enc "ed", enc "er", enc "est", enc "ly", enc "s", enc "es"]

/-- One iteration of the notebook's loop body:
`if word.endswith(suffix): word = word[:-len(suffix)]`. -/
def stripStep (w s : Word) : Word :=
  if List.isSuffixOf s w then List.take (List.length w - List.length s) w else w

/-- `stem_word_custom`: lowercase, then run the stripping loop over the
seven suffixes in order, carrying the progressively shortened word. -/
def stem_word_custom (word : Word) : Word :=
  List.foldl stripStep (pyLower word) suffixes

/-- The notebook's `word_forms` dictionary of `lemmatize_word_custom`. -/
def word_forms : List (Word × Word) :=
  [(enc "running", enc "run"), (enc "ran", enc "run"), (enc "runs", enc "run"),
   (enc "better", enc "good"), (enc "best", enc "good"),
   (enc "went", enc "go"), (enc "going", enc "go"), (enc "goes", enc "go")]

/-- `lemmatize_word_custom`: lowercase, then `word_forms.get(word, word)`. -/
def lemmatize_word_custom (word : Word) : Word :=
  match List.lookup (pyLower word) word_forms with
  | some l => l
  | none => pyLower word

/-- Spec rendering of the Suffix Stripper algorithm (§4.1), written step by
step from the spec's words: lowercase, then for each suffix of
`["ing","ed","er","est","ly","s","es"]` in that fixed order, if the current
(possibly already-shortened) word ends with that suffix, remove that
suffix's length of characters from the end, without stopping after the
first match. -/
def suffixStripperSpec (word : Word) : Word :=
  let w0 := pyLower word
  let w1 := if List.isSuffixOf (enc "ing") w0 then List.take (List.length w0 - 3) w0 else w0
  let w2 := if List.isSuffixOf (enc "ed") w1 then List.take (List.length w1 - 2) w1 else w1
  let w3 := if List.isSuffixOf (enc "er") w2 then List.take (List.length w2 - 2) w2 else w2
  let w4 := if List.isSuffixOf (enc "est") w3 then List.take (List.length w3 - 3) w3 else w3
  let w5 := if List.isSuffixOf (enc "ly") w4 then List.take (List.length w4 - 2) w4 else w4
  let w6 := if List.isSuffixOf (enc "s") w5 then List.take (List.length w5 - 1) w5 else w5
  let w7 := if List.isSuffixOf (enc "es") w6 then List.take (List.length w6 - 2) w6 else w6
  w7

/-- The Irregular Form Table restricted to exactly the four entries the
spec (§8) names: running→run, ran→run, better→good, went→go. -/
def irregularFormTableSpec : List (Word × Word) :=
  [(enc "running", enc "run"), (enc "ran", enc "run"),
   (enc "better", enc "good"), (enc "went", enc "go")]

/-- Length of the suffix "ing". -/
theorem length_enc_ing : List.length (enc "ing") = 3 := rfl

/-- Length of the suffix "ed". -/
theorem length_enc_ed : List.length (enc "ed") = 2 := rfl

/-- Length of the suffix "er". -/
theorem length_enc_er : List.length (enc "er") = 2 := rfl

/-- Length of the suffix "est". -/
theorem length_enc_est : List.length (enc "est") = 3 := rfl

/-- Length of the suffix "ly". -/
theorem length_enc_ly : List.length (enc "ly") = 2 := rfl

/-- Length of the suffix "s". -/
theorem length_enc_s : List.length (enc "s") = 1 := rfl

/-- Length of the suffix "es". -/
theorem length_enc_es : List.length (enc "es") = 2 := rfl

/-- C1 (counterexample): on "classes" the claim's example fails: the code
strips only "s" (after that trim, "classe" does not end in "es"), so the
result is "classe", not "class". -/
theorem C1_counterexample :
    stem_word_custom (enc "classes") = enc "classe" ∧
    stem_word_custom (enc "classes") ≠ enc "class" := by
  decide

/-- C1 (amended): `stem_word_custom` lowercases its input and then checks the
seven suffixes in exactly the fixed order ["ing","ed","er","est","ly","s","es"],
removing each matching suffix's length from the end of the progressively
shortened word and continuing past the first match — it agrees everywhere
with the step-by-step spec rendering; and the cascade is real: "chess" is
trimmed by "s" and then by "es", yielding "ch". -/
theorem C1_stem_algorithm :
    (∀ w : Word, stem_word_custom w = suffixStripperSpec w) ∧
    stem_word_custom (enc "chess") = enc "ch" := by
  constructor
  · intro w
    simp only [stem_word_custom, suffixes, List.foldl, stripStep, suffixStripperSpec,
      length_enc_ing, length_enc_ed, length_enc_er, length_enc_est,
      length_enc_ly, length_enc_s, length_enc_es]
  · decide

/-- C2: the three concrete stripper examples of §8 hold:
"running" → "runn" (naive trim, not "run"), "cats" → "cat",
"fastest" → "fast". -/
theorem C2_stripper_examples :
    stem_word_custom (enc "running") = enc "runn" ∧
    stem_word_custom (enc "cats") = enc "cat" ∧
    stem_word_custom (enc "fastest") = enc "fast" := by
  decide

/-- C3 (counterexample): the table does not contain exactly the entries the
spec names: "runs" is a key of the code's `word_forms` (mapping to "run")
but is absent from the spec-named four-entry table, and the code indeed
maps "runs" to "run" rather than falling back to identity. -/
theorem C3_counterexample :
    List.lookup (enc "runs") word_forms = some (enc "run") ∧
    List.lookup (enc "runs") irregularFormTableSpec = none ∧
    lemmatize_word_custom (enc "runs") = enc "run" := by
  decide

/-- C3 (amended): the Irregular Form Table contains the four entries the
spec names — running→run, ran→run, better→good, went→go — plus four more:
runs→run, best→good, going→go, goes→go; all eight lookups behave
accordingly. -/
theorem C3_lemma_table :
    lemmatize_word_custom (enc "running") = enc "run" ∧
    lemmatize_word_custom (enc "ran") = enc "run" ∧
    lemmatize_word_custom (enc "better") = enc "good" ∧
    lemmatize_word_custom (enc "went") = enc "go" ∧
    lemmatize_word_custom (enc "runs") = enc "run" ∧
    lemmatize_word_custom (enc "best") = enc "good" ∧
    lemmatize_word_custom (enc "going") = enc "go" ∧
    lemmatize_word_custom (enc "goes") = enc "go" := by
  decide

/-- Folding a character to lowercase twice is the same as folding once. -/
theorem pyToLower_idem (c : Nat) : pyToLower (pyToLower c) = pyToLower c := by
  unfold pyToLower
  by_cases h : 65 ≤ c ∧ c ≤ 90
  · rw [if_pos h, if_neg (by omega)]
  · rw [if_neg h, if_neg h]

/-- Lowercasing after uppercasing folds a character the same way as
lowercasing directly. -/
theorem pyToLower_pyToUpper (c : Nat) : pyToLower (pyToUpper c) = pyToLower c := by
  unfold pyToLower pyToUpper
  by_cases h : 97 ≤ c ∧ c ≤ 122
  · rw [if_pos h, if_pos (by omega), if_neg (by omega)]
    omega
  · rw [if_neg h]

/-- `pyLower` on a cons: lowercase the head mapping, then the tail. -/
theorem pyLower_cons (c : Nat) (w : Word) :
    pyLower (c :: w) = pyLowerChar c ++ pyLower w :=
  List.flatMap_cons c w pyLowerChar

/-- `pyUpper` on a cons: uppercase the head mapping, then the tail. -/
theorem pyUpper_cons (c : Nat) (w : Word) :
    pyUpper (c :: w) = pyUpperChar c ++ pyUpper w :=
  List.flatMap_cons c w pyUpperChar

/-- `pyLower` distributes over append. -/
theorem pyLower_append (a b : Word) :
    pyLower (a ++ b) = pyLower a ++ pyLower b :=
  List.flatMap_append a b pyLowerChar

/-- The lowercase mapping of any single character is already fully
lowercased. -/
theorem pyLower_pyLowerChar (c : Nat) : pyLower (pyLowerChar c) = pyLowerChar c := by
  unfold pyLowerChar
  by_cases h : c = 304
  · rw [if_pos h]
    decide
  · rw [if_neg h]
    have h1 : pyToLower c ≠ 304 := by unfold pyToLower; split <;> omega
    unfold pyLower
    rw [List.flatMap_singleton]
    unfold pyLowerChar
    rw [if_neg h1, pyToLower_idem]

/-- `word.lower()` is idempotent. -/
theorem pyLower_idem (w : Word) : pyLower (pyLower w) = pyLower w := by
  induction w with
  | nil => rfl
  | cons c w ih => rw [pyLower_cons, pyLower_append, pyLower_pyLowerChar, ih]

/-- For an ASCII code point (which has no one-to-many expansion),
lowercasing its uppercase mapping lowercases it directly. -/
theorem pyLower_pyUpperChar (c : Nat) (h : c < 128) :
    pyLower (pyUpperChar c) = pyLowerChar c := by
  unfold pyUpperChar
  rw [if_neg (by omega)]
  have h1 : pyToUpper c ≠ 304 := by unfold pyToUpper; split <;> omega
  unfold pyLower
  rw [List.flatMap_singleton]
  unfold pyLowerChar
  rw [if_neg h1, if_neg (by omega), pyToLower_pyToUpper]

/-- Lowercasing an uppercased ASCII word lowercases the original word. -/
theorem pyLower_pyUpper_ascii (w : Word) (h : ∀ c ∈ w, c < 128) :
    pyLower (pyUpper w) = pyLower w := by
  induction w with
  | nil => rfl
  | cons c w ih =>
    rw [pyUpper_cons, pyLower_append, pyLower_pyUpperChar c (h c (List.mem_cons_self c w)),
      pyLower_cons, ih (fun d hd => h d (List.mem_cons_of_mem c hd))]

/-- One loop iteration only removes trailing characters: the incoming word
is the outgoing word followed by some (possibly empty) tail. -/
theorem stripStep_extends (w s : Word) : ∃ t, w = stripStep w s ++ t := by
  unfold stripStep
  split
  · exact ⟨List.drop (List.length w - List.length s) w,
      (List.take_append_drop _ w).symm⟩
  · exact ⟨[], (List.append_nil w).symm⟩

/-- The whole stripping loop only removes trailing characters. -/
theorem foldl_stripStep_extends (l : List Word) (w : Word) :
    ∃ t, w = List.foldl stripStep w l ++ t := by
  induction l generalizing w with
  | nil => exact ⟨[], (List.append_nil w).symm⟩
  | cons s l ih =>
    obtain ⟨t, ht⟩ := ih (stripStep w s)
    obtain ⟨u, hu⟩ := stripStep_extends w s
    refine ⟨t ++ u, ?_⟩
    rw [List.foldl_cons, ← List.append_assoc, ← ht]
    exact hu

/-- C4: whenever the lowercased word is not a key of `word_forms`, the
lemmatizer returns the lowercased input unchanged; in particular
"dog" maps to "dog". -/
theorem C4_fallback_identity :
    (∀ w : Word, List.lookup (pyLower w) word_forms = none →
      lemmatize_word_custom w = pyLower w) ∧
    lemmatize_word_custom (enc "dog") = enc "dog" := by
  constructor
  · intro w h
    unfold lemmatize_word_custom
    rw [h]
  · decide

/-- C4 witness: the fallback theorem applied at the concrete word "cat",
whose lowercased form is not a key of the table. -/
theorem C4_witness : lemmatize_word_custom (enc "cat") = pyLower (enc "cat") :=
  C4_fallback_identity.1 (enc "cat") (by decide)

/-- C5: a word none of whose listed suffixes matches its lowercased form is
returned lowercased and otherwise unchanged. -/
theorem C5_unmatched_identity (w : Word)
    (h : ∀ s ∈ suffixes, List.isSuffixOf s (pyLower w) = false) :
    stem_word_custom w = pyLower w := by
  have h1 := h (enc "ing") (by decide)
  have h2 := h (enc "ed") (by decide)
  have h3 := h (enc "er") (by decide)
  have h4 := h (enc "est") (by decide)
  have h5 := h (enc "ly") (by decide)
  have h6 := h (enc "s") (by decide)
  have h7 := h (enc "es") (by decide)
  simp only [stem_word_custom, suffixes, List.foldl, stripStep,
    h1, h2, h3, h4, h5, h6, h7, Bool.false_eq_true, if_false]

/-- C5 witness: the theorem applied at the concrete word "dog", which no
suffix of the list matches. -/
theorem C5_witness : stem_word_custom (enc "dog") = pyLower (enc "dog") :=
  C5_unmatched_identity (enc "dog") (by decide)

/-- C6: the stemmer gives the same result on a word and on its lowercased
form, because it lowercases first and lowercasing is idempotent. -/
theorem C6_case_insensitive (w : Word) :
    stem_word_custom w = stem_word_custom (pyLower w) := by
  unfold stem_word_custom
  rw [pyLower_idem]

/-- C7 (counterexample): lookup case-insensitivity fails at "ß" (U+00DF):
Python uppercases it to "SS", which lowercases to "ss" and misses the
table, while "ß".lower() is "ß" itself and also misses the table, so the
two results differ. -/
theorem C7_counterexample :
    lemmatize_word_custom (pyUpper [223]) = [115, 115] ∧
    lemmatize_word_custom (pyLower [223]) = [223] ∧
    lemmatize_word_custom (pyUpper [223]) ≠ lemmatize_word_custom (pyLower [223]) := by
  decide

/-- C7 (amended): for words whose characters all have one-to-one case
mappings — here, ASCII words — the lemmatizer gives the same result on the
fully-uppercased and the fully-lowercased forms. -/
theorem C7_lookup_case_insensitive_ascii (w : Word) (h : ∀ c ∈ w, c < 128) :
    lemmatize_word_custom (pyUpper w) = lemmatize_word_custom (pyLower w) := by
  unfold lemmatize_word_custom
  rw [pyLower_pyUpper_ascii w h, pyLower_idem]

/-- C7 witness: the amended theorem applied at the concrete ASCII word
"Running". -/
theorem C7_witness :
    lemmatize_word_custom (pyUpper (enc "Running")) =
      lemmatize_word_custom (pyLower (enc "Running")) :=
  C7_lookup_case_insensitive_ascii (enc "Running") (by decide)

/-- C8: both functions are total Lean functions over all words (they are
plain definitions, not partial or option-valued), and the empty string is a
legitimate, un-special-cased output: stemming "ing" yields "", and both
functions also accept the empty word. -/
theorem C8_total_empty_output :
    stem_word_custom (enc "ing") = enc "" ∧
    stem_word_custom (enc "") = enc "" ∧
    lemmatize_word_custom (enc "") = enc "" := by
  decide

/-- C9 (counterexample): the output can be longer than the input: "İ"
(U+0130) lowercases to the two code points U+0069 U+0307, no listed suffix
matches that, and the stemmer returns a two-character word for a
one-character input. -/
theorem C9_counterexample :
    stem_word_custom [304] = [105, 775] ∧
    List.length ([304] : Word) < List.length (stem_word_custom [304]) := by
  decide

/-- C9 (amended): the stemmer's output is a prefix of the lowercased input —
some tail appended to it gives back `pyLower w` — so only trailing
characters are ever removed, the kept characters are unaltered beyond the
initial lowercasing, and the output is never longer than the lowercased
input (though it may be longer than the input itself when lowercasing
expands a character). -/
theorem C9_stem_truncates (w : Word) :
    ∃ t, pyLower w = stem_word_custom w ++ t ∧
      List.length (stem_word_custom w) ≤ List.length (pyLower w) := by
  obtain ⟨t, ht⟩ := foldl_stripStep_extends suffixes (pyLower w)
  refine ⟨t, ht, ?_⟩
  have happ : List.length (pyLower w) =
      List.length (stem_word_custom w) + List.length t := by
    rw [ht, List.length_append]
    rfl
  omega

/-- C10: the stemmer is not idempotent: "inging" stems to "ing" (the single
"ing" check fires once), but stemming again gives "", a different word. -/
theorem C10_not_idempotent :
    stem_word_custom (enc "inging") = enc "ing" ∧
    stem_word_custom (enc "ing") = enc "" ∧
    stem_word_custom (stem_word_custom (enc "inging")) ≠
      stem_word_custom (enc "inging") := by
  decide
